import Mathlib

/-
  Verification of the allocator-trace verification engine
  (page_log_analyzer.py / double_alloc_analyzer.py of xv6-riscv-lab).

  The engine consumes an ordered sequence of page-allocator and
  slab-allocator events, reconstructs the allocator state, and records
  violations (double allocation, double free, free-without-allocation,
  out-of-buddy-range allocations, slab objects outside slab-flagged pages).

  Python dictionaries are modelled as insertion-ordered association lists
  (matching CPython dict semantics: update-in-place keeps position, new
  keys append at the end, iteration follows insertion order), and Python
  arbitrary-precision integers as Nat.
-/

namespace PageLog

/-- Kind of a page or slab event: an allocation or a free. -/
inductive EvKind where
  | alloc
  | free
deriving DecidableEq

/-- Embeds the dataclass PageEvent: a page allocation or deallocation event. -/
structure PageEvent where
  eventType : EvKind
  order : Nat
  flags : Nat
  pageAddr : Nat
  lineNumber : Nat
deriving DecidableEq

/-- Embeds the dataclass SlabEvent: a slab allocation or deallocation event. -/
structure SlabEvent where
  eventType : EvKind
  cacheName : String
  cachePtr : Nat
  objAddr : Nat
  objSize : Nat
  lineNumber : Nat
deriving DecidableEq

/-- Embeds the dataclass BuddyInitEvent: buddy system initialization. -/
structure BuddyInitEvent where
  startAddr : Nat
  endAddr : Nat
  lineNumber : Nat
deriving DecidableEq

/-- Embeds the dataclass DoubleAllocationError. -/
structure DoubleAllocationError where
  pageAddr : Nat
  firstAllocLine : Nat
  firstAllocOrder : Nat
  firstAllocFlags : Nat
  secondAllocLine : Nat
  secondAllocOrder : Nat
  secondAllocFlags : Nat
deriving DecidableEq

/-- The error_type field of a double-free record:
the string values double_free and free_without_alloc. -/
inductive FreeErrorType where
  | doubleFree
  | freeWithoutAlloc
deriving DecidableEq

/-- Embeds the dataclass DoubleFreeError. -/
structure DoubleFreeError where
  pageAddr : Nat
  freeLine : Nat
  freeOrder : Nat
  freeFlags : Nat
  errorType : FreeErrorType
  originalAllocLine : Option Nat
deriving DecidableEq

/-- Embeds the dataclass SlabDoubleAllocationError. -/
structure SlabDoubleAllocationError where
  objAddr : Nat
  cacheName : String
  firstAllocLine : Nat
  firstAllocCache : String
  firstAllocSize : Nat
  secondAllocLine : Nat
  secondAllocCache : String
  secondAllocSize : Nat
deriving DecidableEq

/-- Embeds the dataclass SlabDoubleFreeError. -/
structure SlabDoubleFreeError where
  objAddr : Nat
  cacheName : String
  freeLine : Nat
  freeSize : Nat
  errorType : FreeErrorType
  originalAllocLine : Option Nat
deriving DecidableEq

/-- The error_type field of a slab page validation record:
the string values slab_not_in_slab_page and page_not_allocated. -/
inductive SlabPageErrorType where
  | slabNotInSlabPage
  | pageNotAllocated
deriving DecidableEq

/-- Embeds the dataclass SlabPageValidationError. -/
structure SlabPageValidationError where
  objAddr : Nat
  cacheName : String
  objSize : Nat
  lineNumber : Nat
  pageAddr : Nat
  pageFlags : Option Nat
  errorType : SlabPageErrorType
deriving DecidableEq

/-- Embeds the dataclass PageRangeValidationError. -/
structure PageRangeValidationError where
  pageAddr : Nat
  order : Nat
  flags : Nat
  lineNumber : Nat
  buddyStart : Nat
  buddyEnd : Nat
deriving DecidableEq

/-- Lookup in an insertion-ordered association list (Python dict read). -/
def alist_get {α : Type} : List (Nat × α) → Nat → Option α
  | [], _ => none
  | (k, v) :: rest, key => if k = key then some v else alist_get rest key

/-- Write to an insertion-ordered association list (Python dict write):
an existing key is updated in place, a new key is appended at the end. -/
def alist_set {α : Type} : List (Nat × α) → Nat → α → List (Nat × α)
  | [], key, v => [(key, v)]
  | (k, w) :: rest, key, v =>
    if k = key then (k, v) :: rest else (k, w) :: alist_set rest key v

/-- Deletion from an association list (Python dict del). Keys are unique in
a Python dict, so removing every pair with the key is extensionally the
same operation. -/
def alist_del {α : Type} (l : List (Nat × α)) (key : Nat) : List (Nat × α) :=
  l.filter (fun p => p.1 != key)

/-- The mutable state of PageAllocAnalyzer (its __init__ fields), restricted
to the fields the verification engine reads or writes; the purely
statistical counters are not part of any tracked invariant. -/
structure AState where
  buddyInitEvent : Option BuddyInitEvent
  allocatedPages : List (Nat × PageEvent)
  freedPages : List (Nat × PageEvent)
  allocatedSlabObjs : List (Nat × SlabEvent)
  freedSlabObjs : List (Nat × SlabEvent)
  doubleAllocations : List DoubleAllocationError
  doubleFrees : List DoubleFreeError
  slabDoubleAllocations : List SlabDoubleAllocationError
  slabDoubleFrees : List SlabDoubleFreeError
  slabPageValidationErrors : List SlabPageValidationError
  pageRangeValidationErrors : List PageRangeValidationError
deriving DecidableEq

/-- The freshly constructed analyzer state. -/
def initState : AState :=
  ⟨none, [], [], [], [], [], [], [], [], [], []⟩

/-- PAGE_FLAG_SLAB from _validate_slab_in_slab_page: 1 << 7. -/
def PAGE_FLAG_SLAB : Nat := 1 <<< 7

/-- The page addresses traversed by the loops of _process_allocation and
_process_deallocation: event.page_addr + i * 4096 for i in
range(1 << event.order). -/
def pageRangeAddrs (e : PageEvent) : List Nat :=
  (List.range (1 <<< e.order)).map (fun i => e.pageAddr + i * 4096)

/-- Embeds _validate_page_range: if no buddy range was observed, do nothing;
otherwise record a PageRangeValidationError when the allocation's byte
range reaches outside the buddy bounds. -/
def validatePageRange (s : AState) (e : PageEvent) : AState :=
  match s.buddyInitEvent with
  | none => s
  | some b =>
    let pageCount := 1 <<< e.order
    let startAddr := e.pageAddr
    let endAddr := e.pageAddr + pageCount * 4096
    if startAddr < b.startAddr ∨ endAddr > b.endAddr then
      { s with pageRangeValidationErrors :=
          s.pageRangeValidationErrors ++
            [⟨e.pageAddr, e.order, e.flags, e.lineNumber, b.startAddr, b.endAddr⟩] }
    else s

/-- One iteration of the loop body of _process_allocation at page address a:
if a is currently allocated, append a DoubleAllocationError built from the
prior owner and the new event; then unconditionally record the address as
allocated by the new event. -/
def allocStep (e : PageEvent) (s : AState) (a : Nat) : AState :=
  let s1 : AState :=
    match alist_get s.allocatedPages a with
    | some prev =>
      { s with doubleAllocations :=
          s.doubleAllocations ++
            [⟨a, prev.lineNumber, prev.order, prev.flags,
              e.lineNumber, e.order, e.flags⟩] }
    | none => s
  { s1 with allocatedPages := alist_set s1.allocatedPages a e }

/-- The loop of _process_allocation over the expanded page addresses. -/
def allocLoop (e : PageEvent) : AState → List Nat → AState
  | s, [] => s
  | s, a :: rest => allocLoop e (allocStep e s a) rest

/-- Embeds _process_allocation: validate the buddy range first, then run the
per-page loop over the expanded addresses (statistics updates omitted). -/
def processAllocation (s : AState) (e : PageEvent) : AState :=
  allocLoop e (validatePageRange s e) (pageRangeAddrs e)

/-- One iteration of the loop body of _process_deallocation at address a:
if a is not allocated, append a DoubleFreeError (double_free when a was
freed before, free_without_alloc otherwise); if allocated, remove it from
the allocated map; in all cases record a as freed by the new event. -/
def freeStep (e : PageEvent) (s : AState) (a : Nat) : AState :=
  let s1 : AState :=
    match alist_get s.allocatedPages a with
    | none =>
      match alist_get s.freedPages a with
      | some prevFree =>
        { s with doubleFrees :=
            s.doubleFrees ++
              [⟨a, e.lineNumber, e.order, e.flags,
                FreeErrorType.doubleFree, some prevFree.lineNumber⟩] }
      | none =>
        { s with doubleFrees :=
            s.doubleFrees ++
              [⟨a, e.lineNumber, e.order, e.flags,
                FreeErrorType.freeWithoutAlloc, none⟩] }
    | some _ => { s with allocatedPages := alist_del s.allocatedPages a }
  { s1 with freedPages := alist_set s1.freedPages a e }

/-- The loop of _process_deallocation over the expanded page addresses. -/
def freeLoop (e : PageEvent) : AState → List Nat → AState
  | s, [] => s
  | s, a :: rest => freeLoop e (freeStep e s a) rest

/-- Embeds _process_deallocation (statistics updates omitted). -/
def processDeallocation (s : AState) (e : PageEvent) : AState :=
  freeLoop e s (pageRangeAddrs e)

/-- The scan of _validate_slab_in_slab_page over allocated_pages.items():
returns the first record (in dict insertion order) whose multi-page range
contains the object address, mirroring the for-loop with break. -/
def findContainingPage (objAddr : Nat) : List (Nat × PageEvent) → Option (Nat × PageEvent)
  | [] => none
  | (a, pe) :: rest =>
    if a ≤ objAddr ∧ objAddr < a + (1 <<< pe.order) * 4096 then some (a, pe)
    else findContainingPage objAddr rest

/-- Embeds _validate_slab_in_slab_page: locate the allocated page containing
the object; record page_not_allocated when none exists, and
slab_not_in_slab_page when the page's flags lack PAGE_FLAG_SLAB. -/
def validateSlabInSlabPage (s : AState) (e : SlabEvent) : AState :=
  let pageAddr := e.objAddr / 4096 * 4096
  match findContainingPage e.objAddr s.allocatedPages with
  | none =>
    { s with slabPageValidationErrors :=
        s.slabPageValidationErrors ++
          [⟨e.objAddr, e.cacheName, e.objSize, e.lineNumber, pageAddr, none,
            SlabPageErrorType.pageNotAllocated⟩] }
  | some (_, pe) =>
    if pe.flags &&& PAGE_FLAG_SLAB = 0 then
      { s with slabPageValidationErrors :=
          s.slabPageValidationErrors ++
            [⟨e.objAddr, e.cacheName, e.objSize, e.lineNumber, pageAddr,
              some pe.flags, SlabPageErrorType.slabNotInSlabPage⟩] }
    else s

/-- Embeds _process_slab_allocation: cross-layer validation first, then the
double-allocation check on the object address, then unconditionally record
the object as allocated by the new event (statistics omitted). -/
def processSlabAllocation (s : AState) (e : SlabEvent) : AState :=
  let s1 := validateSlabInSlabPage s e
  let s2 : AState :=
    match alist_get s1.allocatedSlabObjs e.objAddr with
    | some prev =>
      { s1 with slabDoubleAllocations :=
          s1.slabDoubleAllocations ++
            [⟨e.objAddr, e.cacheName, prev.lineNumber, prev.cacheName,
              prev.objSize, e.lineNumber, e.cacheName, e.objSize⟩] }
    | none => s1
  { s2 with allocatedSlabObjs := alist_set s2.allocatedSlabObjs e.objAddr e }

/-- Embeds _process_slab_deallocation: the three-way branch on the object
address, then unconditionally record the object as freed by the new event
(statistics omitted). -/
def processSlabDeallocation (s : AState) (e : SlabEvent) : AState :=
  let s1 : AState :=
    match alist_get s.allocatedSlabObjs e.objAddr with
    | none =>
      match alist_get s.freedSlabObjs e.objAddr with
      | some prevFree =>
        { s with slabDoubleFrees :=
            s.slabDoubleFrees ++
              [⟨e.objAddr, e.cacheName, e.lineNumber, e.objSize,
                FreeErrorType.doubleFree, some prevFree.lineNumber⟩] }
      | none =>
        { s with slabDoubleFrees :=
            s.slabDoubleFrees ++
              [⟨e.objAddr, e.cacheName, e.lineNumber, e.objSize,
                FreeErrorType.freeWithoutAlloc, none⟩] }
    | some _ =>
      { s with allocatedSlabObjs := alist_del s.allocatedSlabObjs e.objAddr }
  { s1 with freedSlabObjs := alist_set s1.freedSlabObjs e.objAddr e }

/-- A typed event, as produced by the parse_log_file front end. -/
inductive Event where
  | page (e : PageEvent)
  | slab (e : SlabEvent)
  | buddyInit (b : BuddyInitEvent)
deriving DecidableEq

/-- Dispatch of one parsed event, as in parse_log_file's per-line body:
buddy initialization overwrites the recorded range (last write wins), page
and slab events go to their processing functions by kind. -/
def step (s : AState) (ev : Event) : AState :=
  match ev with
  | .buddyInit b => { s with buddyInitEvent := some b }
  | .page e =>
    match e.eventType with
    | .alloc => processAllocation s e
    | .free => processDeallocation s e
  | .slab e =>
    match e.eventType with
    | .alloc => processSlabAllocation s e
    | .free => processSlabDeallocation s e

/-- A full verification run: fold the event sequence over a fresh state. -/
def runAnalyzer (evs : List Event) : AState :=
  evs.foldl step initState

/-- The complete violation output of a run: the six error lists, in the
order the analyzer keeps them. -/
def violationReport (s : AState) :
    List DoubleAllocationError × List DoubleFreeError ×
    List SlabDoubleAllocationError × List SlabDoubleFreeError ×
    List SlabPageValidationError × List PageRangeValidationError :=
  (s.doubleAllocations, s.doubleFrees, s.slabDoubleAllocations,
   s.slabDoubleFrees, s.slabPageValidationErrors, s.pageRangeValidationErrors)

/-- The DoubleAllocationError that the loop body of _process_allocation
emits at address a when the allocated map is m, if any. -/
def daOf (m : List (Nat × PageEvent)) (e : PageEvent) (a : Nat) :
    Option DoubleAllocationError :=
  match alist_get m a with
  | some prev =>
    some ⟨a, prev.lineNumber, prev.order, prev.flags,
      e.lineNumber, e.order, e.flags⟩
  | none => none

/-- The DoubleFreeError that the loop body of _process_deallocation emits at
address a when the allocated map is m and the freed map is f, if any. -/
def dfOf (m f : List (Nat × PageEvent)) (e : PageEvent) (a : Nat) :
    Option DoubleFreeError :=
  match alist_get m a with
  | some _ => none
  | none =>
    match alist_get f a with
    | some prevFree =>
      some ⟨a, e.lineNumber, e.order, e.flags,
        FreeErrorType.doubleFree, some prevFree.lineNumber⟩
    | none =>
      some ⟨a, e.lineNumber, e.order, e.flags,
        FreeErrorType.freeWithoutAlloc, none⟩

/-- The abstract per-address page record of the spec's data model: exactly
one of allocated (owning event), freed (most recent freeing event), or
absent. -/
inductive PageRecord where
  | allocated (e : PageEvent)
  | freed (e : PageEvent)
  | absent
deriving DecidableEq

/-- The record state the analyzer's two dictionaries encode for an address:
an entry in allocated_pages means allocated, otherwise an entry in
freed_pages means freed, otherwise the address was never observed. -/
def pageRecordOf (s : AState) (a : Nat) : PageRecord :=
  match alist_get s.allocatedPages a with
  | some e => .allocated e
  | none =>
    match alist_get s.freedPages a with
    | some e => .freed e
    | none => .absent

/-- Modelled from the spec: the PageRecord transition of section 4.2, stated
over a single map from addresses to records. observe_alloc sets every
expanded address to allocated by the event; observe_free sets every
expanded address to freed by the event; other events leave page records
unchanged. Used only to compare the code's two-dictionary state against
the spec's one-record-per-address model. -/
def specPageStep (m : Nat → PageRecord) (ev : Event) : Nat → PageRecord :=
  match ev with
  | .page e =>
    match e.eventType with
    | .alloc => fun a => if a ∈ pageRangeAddrs e then .allocated e else m a
    | .free => fun a => if a ∈ pageRangeAddrs e then .freed e else m a
  | _ => m

/-- Modelled from the spec: a run of the section 4.2 record machine from the
all-absent initial state. -/
def specPageRun (evs : List Event) : Nat → PageRecord :=
  evs.foldl specPageStep (fun _ => .absent)

/-! ### Association list lemmas -/

theorem alist_get_set_self {α : Type} (l : List (Nat × α)) (k : Nat) (v : α) :
    alist_get (alist_set l k v) k = some v := by
  induction l with
  | nil => simp [alist_set, alist_get]
  | cons p rest ih =>
    obtain ⟨k1, w⟩ := p
    by_cases h : k1 = k <;> simp [alist_set, alist_get, h, ih]

theorem alist_get_set_ne {α : Type} (l : List (Nat × α)) (k : Nat) (v : α)
    (a : Nat) (h : a ≠ k) : alist_get (alist_set l k v) a = alist_get l a := by
  induction l with
  | nil => simp [alist_set, alist_get, Ne.symm h]
  | cons p rest ih =>
    obtain ⟨k1, w⟩ := p
    by_cases h1 : k1 = k
    · have h2 : k1 ≠ a := fun hh => h (hh ▸ h1)
      simp [alist_set, alist_get, h1, h2, Ne.symm h]
    · simp [alist_set, alist_get, h1, ih]

theorem alist_get_del_self {α : Type} (l : List (Nat × α)) (k : Nat) :
    alist_get (alist_del l k) k = none := by
  induction l with
  | nil => rfl
  | cons p rest ih =>
    obtain ⟨k1, w⟩ := p
    by_cases h : k1 = k
    · simpa [alist_del, List.filter_cons, h] using ih
    · have hb : (k1 != k) = true := by simpa using h
      simp only [alist_del, List.filter_cons, hb, if_true] at ih ⊢
      simpa [alist_get, h] using ih

theorem alist_get_del_ne {α : Type} (l : List (Nat × α)) (k : Nat)
    (a : Nat) (h : a ≠ k) : alist_get (alist_del l k) a = alist_get l a := by
  induction l with
  | nil => rfl
  | cons p rest ih =>
    obtain ⟨k1, w⟩ := p
    by_cases h1 : k1 = k
    · have h2 : k1 ≠ a := fun hh => h (hh ▸ h1)
      simp only [alist_del, List.filter_cons] at ih ⊢
      have hb : (k1 != k) = false := by simpa using h1
      rw [hb]
      simpa [alist_get, h2] using ih
    · have hb : (k1 != k) = true := by simpa using h1
      simp only [alist_del, List.filter_cons, hb, if_true] at ih ⊢
      by_cases h2 : k1 = a <;> simp [alist_get, h2, ih]

theorem filterMap_congr_mem {α β : Type} {l : List α} {f g : α → Option β}
    (h : ∀ a ∈ l, f a = g a) : l.filterMap f = l.filterMap g := by
  induction l with
  | nil => rfl
  | cons a rest ih =>
    rw [List.filterMap_cons, List.filterMap_cons, h a (by simp),
      ih fun b hb => h b (by simp [hb])]

/-! ### Single-iteration equations for the loop bodies -/

theorem allocStep_eq (e : PageEvent) (s : AState) (a : Nat) :
    allocStep e s a =
      { s with
        allocatedPages := alist_set s.allocatedPages a e,
        doubleAllocations :=
          s.doubleAllocations ++ (daOf s.allocatedPages e a).toList } := by
  unfold allocStep daOf
  cases alist_get s.allocatedPages a <;> simp

theorem freeStep_eq (e : PageEvent) (s : AState) (a : Nat) :
    freeStep e s a =
      { s with
        allocatedPages :=
          if (alist_get s.allocatedPages a).isSome then
            alist_del s.allocatedPages a
          else s.allocatedPages,
        freedPages := alist_set s.freedPages a e,
        doubleFrees :=
          s.doubleFrees ++ (dfOf s.allocatedPages s.freedPages e a).toList } := by
  unfold freeStep dfOf
  cases alist_get s.allocatedPages a <;>
    cases alist_get s.freedPages a <;> simp

theorem validateSlabInSlabPage_eq (s : AState) (e : SlabEvent) :
    validateSlabInSlabPage s e =
      { s with slabPageValidationErrors :=
          s.slabPageValidationErrors ++
            match findContainingPage e.objAddr s.allocatedPages with
            | none =>
              [⟨e.objAddr, e.cacheName, e.objSize, e.lineNumber,
                e.objAddr / 4096 * 4096, none, SlabPageErrorType.pageNotAllocated⟩]
            | some (_, pe) =>
              if pe.flags &&& PAGE_FLAG_SLAB = 0 then
                [⟨e.objAddr, e.cacheName, e.objSize, e.lineNumber,
                  e.objAddr / 4096 * 4096, some pe.flags,
                  SlabPageErrorType.slabNotInSlabPage⟩]
              else []
      } := by
  unfold validateSlabInSlabPage
  cases findContainingPage e.objAddr s.allocatedPages with
  | none => simp
  | some p =>
    obtain ⟨a, pe⟩ := p
    by_cases h : pe.flags &&& PAGE_FLAG_SLAB = 0 <;> simp [h]

/-! ### Expanded page range -/

theorem one_shiftLeft_pos (n : Nat) : 0 < 1 <<< n := by
  rw [Nat.shiftLeft_eq]
  positivity

theorem pageRangeAddrs_nodup (e : PageEvent) : (pageRangeAddrs e).Nodup := by
  unfold pageRangeAddrs
  refine List.Nodup.map ?_ (List.nodup_range _)
  intro i j hij
  have h2 : e.pageAddr + i * 4096 = e.pageAddr + j * 4096 := hij
  omega

theorem mem_pageRangeAddrs {e : PageEvent} {a : Nat} :
    a ∈ pageRangeAddrs e ↔ ∃ i < 1 <<< e.order, a = e.pageAddr + i * 4096 := by
  unfold pageRangeAddrs
  simp [List.mem_map, List.mem_range, eq_comm]

/-! ### Allocation loop lemmas -/

theorem allocLoop_frame (e : PageEvent) :
    ∀ (addrs : List Nat) (s : AState),
      (allocLoop e s addrs).freedPages = s.freedPages ∧
      (allocLoop e s addrs).doubleFrees = s.doubleFrees ∧
      (allocLoop e s addrs).slabDoubleAllocations = s.slabDoubleAllocations ∧
      (allocLoop e s addrs).slabDoubleFrees = s.slabDoubleFrees ∧
      (allocLoop e s addrs).slabPageValidationErrors = s.slabPageValidationErrors ∧
      (allocLoop e s addrs).pageRangeValidationErrors = s.pageRangeValidationErrors ∧
      (allocLoop e s addrs).buddyInitEvent = s.buddyInitEvent ∧
      (allocLoop e s addrs).allocatedSlabObjs = s.allocatedSlabObjs ∧
      (allocLoop e s addrs).freedSlabObjs = s.freedSlabObjs := by
  intro addrs
  induction addrs with
  | nil => intro s; exact ⟨rfl, rfl, rfl, rfl, rfl, rfl, rfl, rfl, rfl⟩
  | cons a rest ih =>
    intro s
    simpa only [allocLoop, allocStep_eq] using ih _

theorem allocLoop_get_not_mem (e : PageEvent) :
    ∀ (addrs : List Nat) (s : AState) (a : Nat), a ∉ addrs →
      alist_get (allocLoop e s addrs).allocatedPages a =
        alist_get s.allocatedPages a := by
  intro addrs
  induction addrs with
  | nil => intro s a _; rfl
  | cons b rest ih =>
    intro s a h
    simp only [List.mem_cons, not_or] at h
    simp only [allocLoop]
    rw [ih _ _ h.2, allocStep_eq]
    exact alist_get_set_ne _ _ _ _ h.1

theorem allocLoop_get_mem (e : PageEvent) :
    ∀ (addrs : List Nat) (s : AState) (a : Nat), a ∈ addrs →
      alist_get (allocLoop e s addrs).allocatedPages a = some e := by
  intro addrs
  induction addrs with
  | nil => intro s a h; exact absurd h (List.not_mem_nil a)
  | cons b rest ih =>
    intro s a h
    by_cases hr : a ∈ rest
    · simp only [allocLoop]
      exact ih _ _ hr
    · have hab : a = b := by
        rcases List.mem_cons.mp h with h1 | h2
        · exact h1
        · exact absurd h2 hr
      subst hab
      simp only [allocLoop]
      rw [allocLoop_get_not_mem e rest _ _ hr, allocStep_eq]
      exact alist_get_set_self _ _ _

theorem allocLoop_DA (e : PageEvent) :
    ∀ (addrs : List Nat) (s : AState), addrs.Nodup →
      (allocLoop e s addrs).doubleAllocations =
        s.doubleAllocations ++ addrs.filterMap (daOf s.allocatedPages e) := by
  intro addrs
  induction addrs with
  | nil => intro s _; simp [allocLoop]
  | cons b rest ih =>
    intro s h
    obtain ⟨hb, hrest⟩ := List.nodup_cons.mp h
    simp only [allocLoop]
    rw [ih _ hrest, allocStep_eq]
    have hcong : rest.filterMap
        (daOf (alist_set s.allocatedPages b e) e) =
        rest.filterMap (daOf s.allocatedPages e) := by
      refine filterMap_congr_mem fun x hx => ?_
      have hxb : x ≠ b := fun hh => hb (hh ▸ hx)
      unfold daOf
      rw [alist_get_set_ne _ _ _ _ hxb]
    simp only [hcong, List.filterMap_cons]
    cases hda : daOf s.allocatedPages e b <;> simp [hda]

/-! ### Deallocation loop lemmas -/

theorem freeStep_get_alloc_ne (e : PageEvent) (s : AState) {a b : Nat}
    (h : a ≠ b) :
    alist_get (freeStep e s b).allocatedPages a = alist_get s.allocatedPages a := by
  rw [freeStep_eq]
  by_cases hs : (alist_get s.allocatedPages b).isSome <;>
    simp [hs, alist_get_del_ne _ _ _ h]

theorem freeLoop_frame (e : PageEvent) :
    ∀ (addrs : List Nat) (s : AState),
      (freeLoop e s addrs).doubleAllocations = s.doubleAllocations ∧
      (freeLoop e s addrs).slabDoubleAllocations = s.slabDoubleAllocations ∧
      (freeLoop e s addrs).slabDoubleFrees = s.slabDoubleFrees ∧
      (freeLoop e s addrs).slabPageValidationErrors = s.slabPageValidationErrors ∧
      (freeLoop e s addrs).pageRangeValidationErrors = s.pageRangeValidationErrors ∧
      (freeLoop e s addrs).buddyInitEvent = s.buddyInitEvent ∧
      (freeLoop e s addrs).allocatedSlabObjs = s.allocatedSlabObjs ∧
      (freeLoop e s addrs).freedSlabObjs = s.freedSlabObjs := by
  intro addrs
  induction addrs with
  | nil => intro s; exact ⟨rfl, rfl, rfl, rfl, rfl, rfl, rfl, rfl⟩
  | cons a rest ih =>
    intro s
    simpa only [freeLoop, freeStep_eq] using ih _

theorem freeLoop_get_freed_not_mem (e : PageEvent) :
    ∀ (addrs : List Nat) (s : AState) (a : Nat), a ∉ addrs →
      alist_get (freeLoop e s addrs).freedPages a = alist_get s.freedPages a := by
  intro addrs
  induction addrs with
  | nil => intro s a _; rfl
  | cons b rest ih =>
    intro s a h
    simp only [List.mem_cons, not_or] at h
    simp only [freeLoop]
    rw [ih _ _ h.2, freeStep_eq]
    exact alist_get_set_ne _ _ _ _ h.1

theorem freeLoop_get_freed_mem (e : PageEvent) :
    ∀ (addrs : List Nat) (s : AState) (a : Nat), a ∈ addrs →
      alist_get (freeLoop e s addrs).freedPages a = some e := by
  intro addrs
  induction addrs with
  | nil => intro s a h; exact absurd h (List.not_mem_nil a)
  | cons b rest ih =>
    intro s a h
    by_cases hr : a ∈ rest
    · simp only [freeLoop]
      exact ih _ _ hr
    · have hab : a = b := by
        rcases List.mem_cons.mp h with h1 | h2
        · exact h1
        · exact absurd h2 hr
      subst hab
      simp only [freeLoop]
      rw [freeLoop_get_freed_not_mem e rest _ _ hr, freeStep_eq]
      exact alist_get_set_self _ _ _

theorem freeLoop_get_alloc_not_mem (e : PageEvent) :
    ∀ (addrs : List Nat) (s : AState) (a : Nat), a ∉ addrs →
      alist_get (freeLoop e s addrs).allocatedPages a =
        alist_get s.allocatedPages a := by
  intro addrs
  induction addrs with
  | nil => intro s a _; rfl
  | cons b rest ih =>
    intro s a h
    simp only [List.mem_cons, not_or] at h
    simp only [freeLoop]
    rw [ih _ _ h.2, freeStep_get_alloc_ne e s h.1]

theorem freeLoop_get_alloc_none (e : PageEvent) :
    ∀ (addrs : List Nat) (s : AState) (a : Nat),
      alist_get s.allocatedPages a = none →
      alist_get (freeLoop e s addrs).allocatedPages a = none := by
  intro addrs
  induction addrs with
  | nil => intro s a h; exact h
  | cons b rest ih =>
    intro s a h
    simp only [freeLoop]
    refine ih _ _ ?_
    by_cases hab : a = b
    · subst hab
      rw [freeStep_eq]
      by_cases hs : (alist_get s.allocatedPages a).isSome
      · simp [hs, alist_get_del_self]
      · simpa [hs] using h
    · rw [freeStep_get_alloc_ne e s hab]
      exact h

theorem freeLoop_get_alloc_mem (e : PageEvent) :
    ∀ (addrs : List Nat) (s : AState) (a : Nat), a ∈ addrs →
      alist_get (freeLoop e s addrs).allocatedPages a = none := by
  intro addrs
  induction addrs with
  | nil => intro s a h; exact absurd h (List.not_mem_nil a)
  | cons b rest ih =>
    intro s a h
    by_cases hr : a ∈ rest
    · simp only [freeLoop]
      exact ih _ _ hr
    · have hab : a = b := by
        rcases List.mem_cons.mp h with h1 | h2
        · exact h1
        · exact absurd h2 hr
      subst hab
      simp only [freeLoop]
      refine freeLoop_get_alloc_none e rest _ _ ?_
      rw [freeStep_eq]
      by_cases hs : (alist_get s.allocatedPages a).isSome
      · simp [hs, alist_get_del_self]
      · simpa [hs] using Option.not_isSome_iff_eq_none.mp hs

theorem freeLoop_DF (e : PageEvent) :
    ∀ (addrs : List Nat) (s : AState), addrs.Nodup →
      (freeLoop e s addrs).doubleFrees =
        s.doubleFrees ++
          addrs.filterMap (dfOf s.allocatedPages s.freedPages e) := by
  intro addrs
  induction addrs with
  | nil => intro s _; simp [freeLoop]
  | cons b rest ih =>
    intro s h
    obtain ⟨hb, hrest⟩ := List.nodup_cons.mp h
    simp only [freeLoop]
    rw [ih _ hrest]
    have hcong : rest.filterMap
        (dfOf (freeStep e s b).allocatedPages (freeStep e s b).freedPages e) =
        rest.filterMap (dfOf s.allocatedPages s.freedPages e) := by
      refine filterMap_congr_mem fun x hx => ?_
      have hxb : x ≠ b := fun hh => hb (hh ▸ hx)
      unfold dfOf
      rw [freeStep_get_alloc_ne e s hxb, freeStep_eq]
      simp only [alist_get_set_ne _ _ _ _ hxb]
    rw [hcong, freeStep_eq]
    simp only [List.filterMap_cons]
    cases hdf : dfOf s.allocatedPages s.freedPages e b <;> simp [hdf]

/-! ### Filtering the emitted violations by address -/

theorem filter_key_of_not_mem {β : Type} (g : Nat → Option β) (key : β → Nat)
    (hkey : ∀ x b, g x = some b → key b = x) (a : Nat) :
    ∀ addrs : List Nat, a ∉ addrs →
      (addrs.filterMap g).filter (fun d => key d == a) = [] := by
  intro addrs
  induction addrs with
  | nil => intro _; rfl
  | cons b rest ih =>
    intro h
    simp only [List.mem_cons, not_or] at h
    rw [List.filterMap_cons]
    cases hgb : g b with
    | none => exact ih h.2
    | some d =>
      rw [List.filter_cons]
      have hd : (key d == a) = false := by
        have hk := hkey b d hgb
        simp [hk]
        exact fun hh => h.1 hh.symm
      simp only [hd, Bool.false_eq_true, if_false]
      exact ih h.2

theorem filter_key_of_mem {β : Type} (g : Nat → Option β) (key : β → Nat)
    (hkey : ∀ x b, g x = some b → key b = x) (a : Nat) :
    ∀ addrs : List Nat, addrs.Nodup → a ∈ addrs →
      (addrs.filterMap g).filter (fun d => key d == a) = (g a).toList := by
  intro addrs
  induction addrs with
  | nil => intro _ h; exact absurd h (List.not_mem_nil a)
  | cons b rest ih =>
    intro hnd hmem
    obtain ⟨hb, hrest⟩ := List.nodup_cons.mp hnd
    rw [List.filterMap_cons]
    by_cases hab : a = b
    · subst hab
      cases hga : g a with
      | none =>
        simp only [Option.toList_none]
        exact filter_key_of_not_mem g key hkey a rest hb
      | some d =>
        rw [List.filter_cons]
        have hk : key d = a := hkey a d hga
        simp only [hk, beq_self_eq_true, if_true, Option.toList_some]
        rw [filter_key_of_not_mem g key hkey a rest hb]
    · have hmr : a ∈ rest := by
        rcases List.mem_cons.mp hmem with h1 | h2
        · exact absurd h1 hab
        · exact h2
      cases hgb : g b with
      | none => exact ih hrest hmr
      | some d =>
        rw [List.filter_cons]
        have hd : (key d == a) = false := by
          have hk := hkey b d hgb
          simp [hk]
          exact fun hh => hab hh.symm
        simp only [hd, Bool.false_eq_true, if_false]
        exact ih hrest hmr

theorem daOf_key {m : List (Nat × PageEvent)} {e : PageEvent} {x : Nat}
    {d : DoubleAllocationError} (h : daOf m e x = some d) : d.pageAddr = x := by
  unfold daOf at h
  cases hg : alist_get m x <;> rw [hg] at h
  · exact absurd h (by simp)
  · cases h
    rfl

theorem dfOf_key {m f : List (Nat × PageEvent)} {e : PageEvent} {x : Nat}
    {d : DoubleFreeError} (h : dfOf m f e x = some d) : d.pageAddr = x := by
  unfold dfOf at h
  cases hg : alist_get m x <;> rw [hg] at h
  · cases hf : alist_get f x <;> rw [hf] at h <;> cases h <;> rfl
  · exact absurd h (by simp)

/-! ### Buddy range validation lemmas -/

theorem validatePageRange_of_none {s : AState} (e : PageEvent)
    (h : s.buddyInitEvent = none) : validatePageRange s e = s := by
  unfold validatePageRange
  rw [h]

theorem validatePageRange_of_some {s : AState} (e : PageEvent)
    {b : BuddyInitEvent} (h : s.buddyInitEvent = some b) :
    validatePageRange s e =
      if e.pageAddr < b.startAddr ∨
          e.pageAddr + (1 <<< e.order) * 4096 > b.endAddr then
        { s with pageRangeValidationErrors :=
            s.pageRangeValidationErrors ++
              [⟨e.pageAddr, e.order, e.flags, e.lineNumber,
                b.startAddr, b.endAddr⟩] }
      else s := by
  unfold validatePageRange
  rw [h]

theorem validatePageRange_frame (s : AState) (e : PageEvent) :
    (validatePageRange s e).allocatedPages = s.allocatedPages ∧
    (validatePageRange s e).freedPages = s.freedPages ∧
    (validatePageRange s e).doubleAllocations = s.doubleAllocations ∧
    (validatePageRange s e).doubleFrees = s.doubleFrees ∧
    (validatePageRange s e).slabDoubleAllocations = s.slabDoubleAllocations ∧
    (validatePageRange s e).slabDoubleFrees = s.slabDoubleFrees ∧
    (validatePageRange s e).slabPageValidationErrors = s.slabPageValidationErrors ∧
    (validatePageRange s e).buddyInitEvent = s.buddyInitEvent ∧
    (validatePageRange s e).allocatedSlabObjs = s.allocatedSlabObjs ∧
    (validatePageRange s e).freedSlabObjs = s.freedSlabObjs := by
  unfold validatePageRange
  cases h : s.buddyInitEvent with
  | none => simp [h]
  | some b =>
    dsimp only
    split <;> simp [h]

/-! ### Slab processing lemmas -/

theorem processSlabAllocation_spve (s : AState) (e : SlabEvent) :
    (processSlabAllocation s e).slabPageValidationErrors =
      (validateSlabInSlabPage s e).slabPageValidationErrors := by
  simp only [processSlabAllocation]
  cases alist_get (validateSlabInSlabPage s e).allocatedSlabObjs e.objAddr <;> rfl

theorem processSlabAllocation_pages (s : AState) (e : SlabEvent) :
    (processSlabAllocation s e).allocatedPages = s.allocatedPages ∧
    (processSlabAllocation s e).freedPages = s.freedPages := by
  simp only [processSlabAllocation]
  cases alist_get (validateSlabInSlabPage s e).allocatedSlabObjs e.objAddr <;>
    rw [validateSlabInSlabPage_eq] <;> exact ⟨rfl, rfl⟩

theorem processSlabDeallocation_pages (s : AState) (e : SlabEvent) :
    (processSlabDeallocation s e).allocatedPages = s.allocatedPages ∧
    (processSlabDeallocation s e).freedPages = s.freedPages := by
  unfold processSlabDeallocation
  cases alist_get s.allocatedSlabObjs e.objAddr with
  | none =>
    cases alist_get s.freedSlabObjs e.objAddr <;> exact ⟨rfl, rfl⟩
  | some _ => exact ⟨rfl, rfl⟩

/-! ### The per-event page record transition -/

theorem pageRecordOf_step (s : AState) (ev : Event) (a : Nat) :
    pageRecordOf (step s ev) a = specPageStep (pageRecordOf s) ev a := by
  cases ev with
  | buddyInit b => rfl
  | slab e =>
    cases he : e.eventType <;>
      simp only [step, he, specPageStep] <;>
      unfold pageRecordOf
    · rw [(processSlabAllocation_pages s e).1, (processSlabAllocation_pages s e).2]
    · rw [(processSlabDeallocation_pages s e).1, (processSlabDeallocation_pages s e).2]
  | page e =>
    cases he : e.eventType
    · simp only [step, he, specPageStep]
      by_cases hm : a ∈ pageRangeAddrs e
      · unfold processAllocation pageRecordOf
        rw [allocLoop_get_mem e _ _ _ hm, if_pos hm]
      · unfold processAllocation pageRecordOf
        rw [allocLoop_get_not_mem e _ _ _ hm, (allocLoop_frame e _ _).1,
          (validatePageRange_frame s e).1, (validatePageRange_frame s e).2.1,
          if_neg hm]
    · simp only [step, he, specPageStep]
      by_cases hm : a ∈ pageRangeAddrs e
      · unfold processDeallocation pageRecordOf
        rw [freeLoop_get_alloc_mem e _ _ _ hm,
          freeLoop_get_freed_mem e _ _ _ hm, if_pos hm]
      · unfold processDeallocation pageRecordOf
        rw [freeLoop_get_alloc_not_mem e _ _ _ hm,
          freeLoop_get_freed_not_mem e _ _ _ hm, if_neg hm]

theorem specPageStep_congr {m m2 : Nat → PageRecord} (ev : Event) (a : Nat)
    (h : ∀ x, m x = m2 x) : specPageStep m ev a = specPageStep m2 ev a := by
  cases ev with
  | buddyInit b => exact h a
  | slab e => exact h a
  | page e =>
    cases he : e.eventType <;> simp only [specPageStep, he] <;> split <;>
      first
        | rfl
        | exact h a

theorem foldl_pageRecord (evs : List Event) :
    ∀ (s : AState) (m : Nat → PageRecord),
      (∀ x, pageRecordOf s x = m x) →
      ∀ a, pageRecordOf (evs.foldl step s) a = evs.foldl specPageStep m a := by
  induction evs with
  | nil => intro s m h a; exact h a
  | cons ev rest ih =>
    intro s m h a
    simp only [List.foldl_cons]
    refine ih (step s ev) (specPageStep m ev) (fun x => ?_) a
    rw [pageRecordOf_step]
    exact specPageStep_congr ev x h

theorem filterMap_eq_nil_of_none {α β : Type} {l : List α} {f : α → Option β}
    (h : ∀ a ∈ l, f a = none) : l.filterMap f = [] := by
  induction l with
  | nil => rfl
  | cons a rest ih =>
    rw [List.filterMap_cons, h a (by simp)]
    exact ih fun b hb => h b (by simp [hb])

/-! ## The claims -/

/-- Claim C6: for every page event with base address b and order k, the range
expansion used by both the allocation path and the free path (the address
list pageRangeAddrs, over which processAllocation and processDeallocation
run their loops) yields exactly 2 ^ k addresses, namely b + i * 4096 for
i below 2 ^ k, in strictly ascending order increasing by 4096, starting
at b. -/
theorem claim_C6_expand_page_range (e : PageEvent) :
    (∀ s : AState, processAllocation s e =
      allocLoop e (validatePageRange s e) (pageRangeAddrs e)) ∧
    (∀ s : AState, processDeallocation s e = freeLoop e s (pageRangeAddrs e)) ∧
    (pageRangeAddrs e).length = 2 ^ e.order ∧
    (∀ i, i < 2 ^ e.order →
      (pageRangeAddrs e)[i]? = some (e.pageAddr + i * 4096)) ∧
    (∀ i, i + 1 < 2 ^ e.order →
      ∃ x y, (pageRangeAddrs e)[i]? = some x ∧
        (pageRangeAddrs e)[i + 1]? = some y ∧ y = x + 4096) ∧
    (pageRangeAddrs e).head? = some e.pageAddr := by
  have hlen : (pageRangeAddrs e).length = 2 ^ e.order := by
    simp [pageRangeAddrs, Nat.one_shiftLeft]
  have hget : ∀ i, i < 2 ^ e.order →
      (pageRangeAddrs e)[i]? = some (e.pageAddr + i * 4096) := by
    intro i hi
    unfold pageRangeAddrs
    rw [List.getElem?_map, List.getElem?_range (by rwa [Nat.one_shiftLeft])]
    rfl
  refine ⟨fun s => rfl, fun s => rfl, hlen, hget, ?_, ?_⟩
  · intro i hi
    exact ⟨e.pageAddr + i * 4096, e.pageAddr + (i + 1) * 4096,
      hget i (by omega), hget (i + 1) hi, by ring⟩
  · rw [List.head?_eq_getElem? _]
    have h0 := hget 0 (Nat.pos_pow_of_pos _ (by omega))
    simpa using h0

/-- Witness for claim C6 at a concrete order-2 allocation event. -/
theorem claim_C6_witness :
    (pageRangeAddrs ⟨.alloc, 2, 0, 0x3000, 1⟩).length = 4 ∧
    (pageRangeAddrs ⟨.alloc, 2, 0, 0x3000, 1⟩)[3]? = some (0x3000 + 3 * 4096) := by
  refine ⟨?_, (claim_C6_expand_page_range ⟨.alloc, 2, 0, 0x3000, 1⟩).2.2.2.1 3 (by decide)⟩
  exact (claim_C6_expand_page_range ⟨.alloc, 2, 0, 0x3000, 1⟩).2.2.1

/-- Claim C3: on every page allocation processed after a BuddyRange has been
observed, exactly one PageOutsideBuddyRange violation carrying the
offending range and the buddy bounds is emitted if and only if the
expanded byte range does not lie entirely within the buddy arena; when no
BuddyRange has been observed, no such violation is emitted. In the
concrete scenario with arena 0x1000 to 0x5000, an order-1 allocation at
0x4000 produces exactly one violation with bounds (0x1000, 0x5000). -/
theorem claim_C3_buddy_range_validation (s : AState) (e : PageEvent) :
    (s.buddyInitEvent = none →
      (processAllocation s e).pageRangeValidationErrors =
        s.pageRangeValidationErrors) ∧
    (∀ b : BuddyInitEvent, s.buddyInitEvent = some b →
      (processAllocation s e).pageRangeValidationErrors =
        s.pageRangeValidationErrors ++
          (if ¬ (b.startAddr ≤ e.pageAddr ∧
              e.pageAddr + 2 ^ e.order * 4096 ≤ b.endAddr) then
            [⟨e.pageAddr, e.order, e.flags, e.lineNumber,
              b.startAddr, b.endAddr⟩]
          else [])) ∧
    (runAnalyzer [.buddyInit ⟨0x1000, 0x5000, 1⟩,
        .page ⟨.alloc, 1, 0, 0x4000, 2⟩]).pageRangeValidationErrors =
      [⟨0x4000, 1, 0, 2, 0x1000, 0x5000⟩] := by
  have hfr : (processAllocation s e).pageRangeValidationErrors =
      (validatePageRange s e).pageRangeValidationErrors := by
    unfold processAllocation
    exact (allocLoop_frame e _ _).2.2.2.2.2.1
  refine ⟨?_, ?_, by decide⟩
  · intro h
    rw [hfr, validatePageRange_of_none e h]
  · intro b h
    rw [hfr, validatePageRange_of_some e h]
    have hsh : (1 <<< e.order) * 4096 = 2 ^ e.order * 4096 := by
      rw [Nat.one_shiftLeft]
    by_cases hc : e.pageAddr < b.startAddr ∨
        e.pageAddr + (1 <<< e.order) * 4096 > b.endAddr
    · rw [if_pos hc, if_pos (by omega)]
    · rw [if_neg hc, if_neg (by omega)]
      simp

/-- Witness for claim C3: the buddy-bounds scenario applied through the
theorem at a state that has observed the arena 0x1000 to 0x5000. -/
theorem claim_C3_witness :
    (processAllocation
        { initState with buddyInitEvent := some ⟨0x1000, 0x5000, 1⟩ }
        ⟨.alloc, 1, 0, 0x4000, 2⟩).pageRangeValidationErrors =
      [⟨0x4000, 1, 0, 2, 0x1000, 0x5000⟩] := by
  have h := (claim_C3_buddy_range_validation
      { initState with buddyInitEvent := some ⟨0x1000, 0x5000, 1⟩ }
      ⟨.alloc, 1, 0, 0x4000, 2⟩).2.1 ⟨0x1000, 0x5000, 1⟩ rfl
  rw [h]
  decide

/-- Claim C4: on every slab allocation, the validator scans the currently
allocated page records for the first one whose multi-page range contains
the object address: if none is found exactly one page_not_allocated
violation is emitted; if one is found whose flags lack PAGE_FLAG_SLAB,
exactly one slab_not_in_slab_page violation carrying the page's flags is
emitted; if the found page has the flag, no cross-layer violation is
emitted. The two concrete scenarios at page 0x2000 / object 0x2040 behave
as the claim states. -/
theorem claim_C4_slab_in_slab_page (s : AState) (e : SlabEvent) :
    (findContainingPage e.objAddr s.allocatedPages = none →
      (processSlabAllocation s e).slabPageValidationErrors =
        s.slabPageValidationErrors ++
          [⟨e.objAddr, e.cacheName, e.objSize, e.lineNumber,
            e.objAddr / 4096 * 4096, none,
            SlabPageErrorType.pageNotAllocated⟩]) ∧
    (∀ (a : Nat) (pe : PageEvent),
      findContainingPage e.objAddr s.allocatedPages = some (a, pe) →
      (pe.flags &&& PAGE_FLAG_SLAB = 0 →
        (processSlabAllocation s e).slabPageValidationErrors =
          s.slabPageValidationErrors ++
            [⟨e.objAddr, e.cacheName, e.objSize, e.lineNumber,
              e.objAddr / 4096 * 4096, some pe.flags,
              SlabPageErrorType.slabNotInSlabPage⟩]) ∧
      (pe.flags &&& PAGE_FLAG_SLAB ≠ 0 →
        (processSlabAllocation s e).slabPageValidationErrors =
          s.slabPageValidationErrors)) ∧
    ((runAnalyzer [.page ⟨.alloc, 0, 0x80, 0x2000, 1⟩,
        .slab ⟨.alloc, "kmem", 0x100, 0x2040, 64, 2⟩]).slabPageValidationErrors
      = []) ∧
    ((runAnalyzer [.page ⟨.alloc, 0, 0, 0x2000, 1⟩,
        .slab ⟨.alloc, "kmem", 0x100, 0x2040, 64, 2⟩]).slabPageValidationErrors
      = [⟨0x2040, "kmem", 64, 2, 0x2000, some 0,
          SlabPageErrorType.slabNotInSlabPage⟩]) := by
  have hspve := processSlabAllocation_spve s e
  rw [validateSlabInSlabPage_eq] at hspve
  refine ⟨?_, ?_, by decide, by decide⟩
  · intro h
    rw [hspve, h]
  · intro a pe h
    rw [h] at hspve
    dsimp only at hspve
    constructor
    · intro hz
      rw [hspve, if_pos hz]
    · intro hz
      rw [hspve, if_neg hz]
      simp

/-- Witness for claim C4: the slab_not_in_slab_page case applied through the
theorem at a state holding one allocated page at 0x2000 without the
slab-backing flag. -/
theorem claim_C4_witness :
    (processSlabAllocation (runAnalyzer [.page ⟨.alloc, 0, 0, 0x2000, 1⟩])
        ⟨.alloc, "kmem", 0x100, 0x2040, 64, 2⟩).slabPageValidationErrors =
      [⟨0x2040, "kmem", 64, 2, 0x2000, some 0,
        SlabPageErrorType.slabNotInSlabPage⟩] := by
  have h := ((claim_C4_slab_in_slab_page
      (runAnalyzer [.page ⟨.alloc, 0, 0, 0x2000, 1⟩])
      ⟨.alloc, "kmem", 0x100, 0x2040, 64, 2⟩).2.1
      0x2000 ⟨.alloc, 0, 0, 0x2000, 1⟩ (by decide)).1 (by decide)
  rw [h]
  decide

/-- Claim C10: a slab free whose object address is currently allocated is a
normal free and emits no violation of any kind, with no hypothesis at all
relating its cache_name, cache_handle or object_size to those of the
owning allocation; the object leaves the allocated map and is recorded in
the freed map. The concrete mismatch scenario (alloc in cache A size 64,
free in cache B size 32) produces an empty violation report. -/
theorem claim_C10_slab_free_ignores_cache (s : AState) (e prev : SlabEvent)
    (h : alist_get s.allocatedSlabObjs e.objAddr = some prev) :
    (processSlabDeallocation s e).slabDoubleFrees = s.slabDoubleFrees ∧
    (processSlabDeallocation s e).slabDoubleAllocations =
      s.slabDoubleAllocations ∧
    (processSlabDeallocation s e).slabPageValidationErrors =
      s.slabPageValidationErrors ∧
    (processSlabDeallocation s e).doubleAllocations = s.doubleAllocations ∧
    (processSlabDeallocation s e).doubleFrees = s.doubleFrees ∧
    (processSlabDeallocation s e).pageRangeValidationErrors =
      s.pageRangeValidationErrors ∧
    alist_get (processSlabDeallocation s e).allocatedSlabObjs e.objAddr =
      none ∧
    alist_get (processSlabDeallocation s e).freedSlabObjs e.objAddr = some e ∧
    violationReport (runAnalyzer
      [.page ⟨.alloc, 0, 0x80, 0x2000, 1⟩,
       .slab ⟨.alloc, "A", 1, 0x2040, 64, 2⟩,
       .slab ⟨.free, "B", 2, 0x2040, 32, 3⟩]) = ([], [], [], [], [], []) := by
  simp only [processSlabDeallocation]
  rw [h]
  exact ⟨rfl, rfl, rfl, rfl, rfl, rfl, alist_get_del_self _ _,
    alist_get_set_self _ _ _, rfl⟩

/-- Witness for claim C10 at the concrete cache/size-mismatch free. -/
theorem claim_C10_witness :
    (processSlabDeallocation
        (runAnalyzer [.page ⟨.alloc, 0, 0x80, 0x2000, 1⟩,
          .slab ⟨.alloc, "A", 1, 0x2040, 64, 2⟩])
        ⟨.free, "B", 2, 0x2040, 32, 3⟩).slabDoubleFrees =
      (runAnalyzer [.page ⟨.alloc, 0, 0x80, 0x2000, 1⟩,
        .slab ⟨.alloc, "A", 1, 0x2040, 64, 2⟩]).slabDoubleFrees ∧
    alist_get (processSlabDeallocation
        (runAnalyzer [.page ⟨.alloc, 0, 0x80, 0x2000, 1⟩,
          .slab ⟨.alloc, "A", 1, 0x2040, 64, 2⟩])
        ⟨.free, "B", 2, 0x2040, 32, 3⟩).allocatedSlabObjs 0x2040 = none := by
  have h := claim_C10_slab_free_ignores_cache
      (runAnalyzer [.page ⟨.alloc, 0, 0x80, 0x2000, 1⟩,
        .slab ⟨.alloc, "A", 1, 0x2040, 64, 2⟩])
      ⟨.free, "B", 2, 0x2040, 32, 3⟩
      ⟨.alloc, "A", 1, 0x2040, 64, 2⟩ (by decide)
  exact ⟨h.1, h.2.2.2.2.2.2.1⟩

/-- Claim C8: the engine is a pure function of its input event sequence:
two runs from fresh state over the same sequence produce identical
violation lists. In the embedding the analyzer state is threaded purely
(the Python class keeps all state in instance attributes created in
__init__), so determinism holds by construction. -/
theorem claim_C8_engine_deterministic (evs1 evs2 : List Event)
    (h : evs1 = evs2) :
    violationReport (runAnalyzer evs1) = violationReport (runAnalyzer evs2) := by
  rw [h]

/-- Witness for claim C8 on a concrete three-event log. -/
theorem claim_C8_witness :
    violationReport (runAnalyzer [.buddyInit ⟨0x1000, 0x5000, 1⟩,
        .page ⟨.alloc, 0, 0x80, 0x3000, 2⟩, .page ⟨.alloc, 0, 0x80, 0x3000, 3⟩]) =
      violationReport (runAnalyzer [.buddyInit ⟨0x1000, 0x5000, 1⟩,
        .page ⟨.alloc, 0, 0x80, 0x3000, 2⟩, .page ⟨.alloc, 0, 0x80, 0x3000, 3⟩]) :=
  claim_C8_engine_deterministic _ _ rfl

/-- Claim C7: after every prefix of the event sequence, every page address is
in exactly one of the three record states of the spec's data model:
allocated (with its owning allocation event), freed (with the most recent
freeing event), or absent. The code keeps two dictionaries, and the record
they encode (an allocated entry shadows any stale freed entry) coincides,
for every address, with the run of the spec's single-map record machine,
whose value is one PageRecord constructor — so an address is never
simultaneously in the allocated state and the freed state. -/
theorem claim_C7_record_state_refinement (evs : List Event) (a : Nat) :
    pageRecordOf (runAnalyzer evs) a = specPageRun evs a := by
  unfold runAnalyzer specPageRun
  exact foldl_pageRecord evs initState (fun _ => .absent) (fun _ => rfl) a

/-- Counterexample for claim C5: the line "page_alloc: order 0, flags 0x0,
page 0x3001" matches the allocation grammar with a page address that is
not page-size aligned, yet the engine attaches no reportable anomaly of
any kind to the event — every violation list stays empty while the event
is applied as given — contradicting the claim that such a line yields a
reportable anomaly attached to that event. -/
theorem claim_C5_counterexample :
    violationReport (runAnalyzer [.page ⟨.alloc, 0, 0, 0x3001, 1⟩]) =
      ([], [], [], [], [], []) ∧
    alist_get (runAnalyzer
        [.page ⟨.alloc, 0, 0, 0x3001, 1⟩]).allocatedPages 0x3001 =
      some ⟨.alloc, 0, 0, 0x3001, 1⟩ :=
  ⟨rfl, by decide⟩

/-- Claim C5 as amended: a parsed page allocation whose numeric fields are
out of range (page address not 4096-aligned, or order beyond any
practical bound) is processed like any other event — ingestion continues,
the event is applied exactly as given, and the address range arithmetic
is exact — but no anomaly is attached or reported for it: from a fresh
state such an allocation leaves every violation list empty. -/
theorem claim_C5_amended (e : PageEvent) (he : e.eventType = .alloc)
    (hbad : e.pageAddr % 4096 ≠ 0 ∨ 20 < e.order) :
    violationReport (runAnalyzer [.page e]) = ([], [], [], [], [], []) ∧
    alist_get (runAnalyzer [.page e]).allocatedPages e.pageAddr = some e := by
  have hrun : runAnalyzer [.page e] = processAllocation initState e := by
    simp only [runAnalyzer, List.foldl, step, he]
  have hval : validatePageRange initState e = initState :=
    validatePageRange_of_none e rfl
  have hDA : (processAllocation initState e).doubleAllocations = [] := by
    unfold processAllocation
    rw [hval, allocLoop_DA e _ _ (pageRangeAddrs_nodup e)]
    have : (pageRangeAddrs e).filterMap (daOf initState.allocatedPages e) = [] :=
      filterMap_eq_nil_of_none fun a _ => rfl
    rw [this]
    rfl
  have hframe := allocLoop_frame e (pageRangeAddrs e) initState
  constructor
  · rw [hrun]
    unfold processAllocation at hDA ⊢
    rw [hval] at hDA ⊢
    unfold violationReport
    rw [hDA, hframe.2.1, hframe.2.2.1, hframe.2.2.2.1,
      hframe.2.2.2.2.1, hframe.2.2.2.2.2.1]
    rfl
  · rw [hrun]
    unfold processAllocation
    rw [hval]
    refine allocLoop_get_mem e _ _ _ ?_
    exact mem_pageRangeAddrs.mpr ⟨0, one_shiftLeft_pos _, by simp⟩

/-- Witness for the amended claim C5 at the misaligned address 0x3001. -/
theorem claim_C5_amended_witness :
    violationReport (runAnalyzer [.page ⟨.alloc, 0, 0, 0x3001, 1⟩]) =
      ([], [], [], [], [], []) ∧
    alist_get (runAnalyzer
        [.page ⟨.alloc, 0, 0, 0x3001, 1⟩]).allocatedPages 0x3001 =
      some ⟨.alloc, 0, 0, 0x3001, 1⟩ :=
  claim_C5_amended ⟨.alloc, 0, 0, 0x3001, 1⟩ rfl (Or.inl (by decide))

/-- Claim C1: for every page allocation event and every address in its
expanded range, if that address is currently allocated then exactly one
DoubleAllocation violation is emitted, carrying the address and both
events' source lines, orders and flags; and whether or not a violation
was emitted, the address ends allocated owned by the new event. The
concrete scenario of two consecutive order-0 allocations of page 0x3000
yields exactly one violation with both source lines, and the page ends
owned by the second event. -/
theorem claim_C1_process_allocation (s : AState) (e : PageEvent) :
    (∀ a, a ∈ pageRangeAddrs e →
      alist_get (processAllocation s e).allocatedPages a = some e) ∧
    ((processAllocation s e).doubleAllocations =
      s.doubleAllocations ++
        (pageRangeAddrs e).filterMap (daOf s.allocatedPages e)) ∧
    (∀ a prev, a ∈ pageRangeAddrs e →
      alist_get s.allocatedPages a = some prev →
      ((pageRangeAddrs e).filterMap (daOf s.allocatedPages e)).filter
          (fun d => d.pageAddr == a) =
        [⟨a, prev.lineNumber, prev.order, prev.flags,
          e.lineNumber, e.order, e.flags⟩]) ∧
    (∀ a, a ∈ pageRangeAddrs e →
      alist_get s.allocatedPages a = none →
      ((pageRangeAddrs e).filterMap (daOf s.allocatedPages e)).filter
          (fun d => d.pageAddr == a) = []) ∧
    ((runAnalyzer [.page ⟨.alloc, 0, 0x80, 0x3000, 1⟩,
        .page ⟨.alloc, 0, 0x80, 0x3000, 2⟩]).doubleAllocations =
      [⟨0x3000, 1, 0, 0x80, 2, 0, 0x80⟩]) ∧
    alist_get (runAnalyzer [.page ⟨.alloc, 0, 0x80, 0x3000, 1⟩,
        .page ⟨.alloc, 0, 0x80, 0x3000, 2⟩]).allocatedPages 0x3000 =
      some ⟨.alloc, 0, 0x80, 0x3000, 2⟩ := by
  have hA := validatePageRange_frame s e
  refine ⟨?_, ?_, ?_, ?_, by decide, by decide⟩
  · intro a ha
    unfold processAllocation
    exact allocLoop_get_mem e _ _ _ ha
  · unfold processAllocation
    rw [allocLoop_DA e _ _ (pageRangeAddrs_nodup e), hA.2.2.1, hA.1]
  · intro a prev ha hget
    rw [filter_key_of_mem (daOf s.allocatedPages e)
      DoubleAllocationError.pageAddr (fun x b h => daOf_key h) a
      (pageRangeAddrs e) (pageRangeAddrs_nodup e) ha]
    unfold daOf
    rw [hget]
    rfl
  · intro a ha hget
    rw [filter_key_of_mem (daOf s.allocatedPages e)
      DoubleAllocationError.pageAddr (fun x b h => daOf_key h) a
      (pageRangeAddrs e) (pageRangeAddrs_nodup e) ha]
    unfold daOf
    rw [hget]
    rfl

/-- Witness for claim C1: the double allocation of page 0x3000, applied
through the theorem at the state left by the first allocation. -/
theorem claim_C1_witness :
    alist_get (processAllocation
        (runAnalyzer [.page ⟨.alloc, 0, 0x80, 0x3000, 1⟩])
        ⟨.alloc, 0, 0x80, 0x3000, 2⟩).allocatedPages 0x3000 =
      some ⟨.alloc, 0, 0x80, 0x3000, 2⟩ ∧
    ((pageRangeAddrs ⟨.alloc, 0, 0x80, 0x3000, 2⟩).filterMap
        (daOf (runAnalyzer
          [.page ⟨.alloc, 0, 0x80, 0x3000, 1⟩]).allocatedPages
          ⟨.alloc, 0, 0x80, 0x3000, 2⟩)).filter
        (fun d => d.pageAddr == 0x3000) =
      [⟨0x3000, 1, 0, 0x80, 2, 0, 0x80⟩] := by
  have h := claim_C1_process_allocation
      (runAnalyzer [.page ⟨.alloc, 0, 0x80, 0x3000, 1⟩])
      ⟨.alloc, 0, 0x80, 0x3000, 2⟩
  exact ⟨h.1 0x3000 (by decide),
    h.2.2.1 0x3000 ⟨.alloc, 0, 0x80, 0x3000, 1⟩ (by decide) (by decide)⟩

/-- Claim C2: for every page free event and every address in its expanded
range, the tracker follows the three-way branch — allocated: transition
to freed with no violation; freed: exactly one DoubleFree referencing the
most recent prior free; absent: exactly one FreeWithoutAllocation — and
in all three cases the address ends freed owned by the current event and
out of the allocated map. The concrete scenario of an allocation followed
by three frees of page 0x4000 yields exactly two DoubleFree violations,
each referencing the immediately preceding free event. -/
theorem claim_C2_process_deallocation (s : AState) (e : PageEvent) :
    (∀ a, a ∈ pageRangeAddrs e →
      alist_get (processDeallocation s e).freedPages a = some e ∧
      alist_get (processDeallocation s e).allocatedPages a = none) ∧
    ((processDeallocation s e).doubleFrees =
      s.doubleFrees ++
        (pageRangeAddrs e).filterMap
          (dfOf s.allocatedPages s.freedPages e)) ∧
    (∀ a pe, a ∈ pageRangeAddrs e →
      alist_get s.allocatedPages a = some pe →
      ((pageRangeAddrs e).filterMap
          (dfOf s.allocatedPages s.freedPages e)).filter
        (fun d => d.pageAddr == a) = []) ∧
    (∀ a pf, a ∈ pageRangeAddrs e →
      alist_get s.allocatedPages a = none →
      alist_get s.freedPages a = some pf →
      ((pageRangeAddrs e).filterMap
          (dfOf s.allocatedPages s.freedPages e)).filter
        (fun d => d.pageAddr == a) =
        [⟨a, e.lineNumber, e.order, e.flags,
          FreeErrorType.doubleFree, some pf.lineNumber⟩]) ∧
    (∀ a, a ∈ pageRangeAddrs e →
      alist_get s.allocatedPages a = none →
      alist_get s.freedPages a = none →
      ((pageRangeAddrs e).filterMap
          (dfOf s.allocatedPages s.freedPages e)).filter
        (fun d => d.pageAddr == a) =
        [⟨a, e.lineNumber, e.order, e.flags,
          FreeErrorType.freeWithoutAlloc, none⟩]) ∧
    (runAnalyzer [.page ⟨.alloc, 0, 5, 0x4000, 1⟩,
        .page ⟨.free, 0, 5, 0x4000, 2⟩, .page ⟨.free, 0, 5, 0x4000, 3⟩,
        .page ⟨.free, 0, 5, 0x4000, 4⟩]).doubleFrees =
      [⟨0x4000, 3, 0, 5, FreeErrorType.doubleFree, some 2⟩,
       ⟨0x4000, 4, 0, 5, FreeErrorType.doubleFree, some 3⟩] := by
  refine ⟨?_, ?_, ?_, ?_, ?_, by decide⟩
  · intro a ha
    unfold processDeallocation
    exact ⟨freeLoop_get_freed_mem e _ _ _ ha,
      freeLoop_get_alloc_mem e _ _ _ ha⟩
  · unfold processDeallocation
    rw [freeLoop_DF e _ _ (pageRangeAddrs_nodup e)]
  · intro a pe ha hget
    rw [filter_key_of_mem (dfOf s.allocatedPages s.freedPages e)
      DoubleFreeError.pageAddr (fun x b h => dfOf_key h) a
      (pageRangeAddrs e) (pageRangeAddrs_nodup e) ha]
    unfold dfOf
    rw [hget]
    rfl
  · intro a pf ha hga hgf
    rw [filter_key_of_mem (dfOf s.allocatedPages s.freedPages e)
      DoubleFreeError.pageAddr (fun x b h => dfOf_key h) a
      (pageRangeAddrs e) (pageRangeAddrs_nodup e) ha]
    unfold dfOf
    rw [hga, hgf]
    rfl
  · intro a ha hga hgf
    rw [filter_key_of_mem (dfOf s.allocatedPages s.freedPages e)
      DoubleFreeError.pageAddr (fun x b h => dfOf_key h) a
      (pageRangeAddrs e) (pageRangeAddrs_nodup e) ha]
    unfold dfOf
    rw [hga, hgf]
    rfl

/-- Witness for claim C2: the second free of page 0x4000 applied through the
theorem at the state left by an allocation and one normal free. -/
theorem claim_C2_witness :
    alist_get (processDeallocation
        (runAnalyzer [.page ⟨.alloc, 0, 5, 0x4000, 1⟩,
          .page ⟨.free, 0, 5, 0x4000, 2⟩])
        ⟨.free, 0, 5, 0x4000, 3⟩).freedPages 0x4000 =
      some ⟨.free, 0, 5, 0x4000, 3⟩ ∧
    ((pageRangeAddrs ⟨.free, 0, 5, 0x4000, 3⟩).filterMap
        (dfOf (runAnalyzer [.page ⟨.alloc, 0, 5, 0x4000, 1⟩,
            .page ⟨.free, 0, 5, 0x4000, 2⟩]).allocatedPages
          (runAnalyzer [.page ⟨.alloc, 0, 5, 0x4000, 1⟩,
            .page ⟨.free, 0, 5, 0x4000, 2⟩]).freedPages
          ⟨.free, 0, 5, 0x4000, 3⟩)).filter
        (fun d => d.pageAddr == 0x4000) =
      [⟨0x4000, 3, 0, 5, FreeErrorType.doubleFree, some 2⟩] := by
  have h := claim_C2_process_deallocation
      (runAnalyzer [.page ⟨.alloc, 0, 5, 0x4000, 1⟩,
        .page ⟨.free, 0, 5, 0x4000, 2⟩])
      ⟨.free, 0, 5, 0x4000, 3⟩
  exact ⟨(h.1 0x4000 (by decide)).1,
    h.2.2.2.1 0x4000 ⟨.free, 0, 5, 0x4000, 2⟩ (by decide) (by decide)
      (by decide)⟩

/-- Claim C9: for a live order-k page allocation with k at least 1, a
subsequent free of strictly smaller order whose expanded range covers only
part of the allocation produces no violation of any kind for the order
mismatch: every violation list is left unchanged by the free, the pages of
the freed sub-range transition to freed with no violation, and every page
of the original allocation outside the freed sub-range remains allocated,
owned by the original allocation event. -/
theorem claim_C9_partial_free_frame (s : AState) (ea ef : PageEvent)
    (d : Nat) (hk : 1 ≤ ea.order) (hj : ef.order < ea.order)
    (hbase : ef.pageAddr = ea.pageAddr + d * 4096)
    (hcover : d + 2 ^ ef.order ≤ 2 ^ ea.order) :
    (∀ a, a ∈ pageRangeAddrs ef →
      alist_get (processDeallocation (processAllocation s ea)
        ef).allocatedPages a = none ∧
      alist_get (processDeallocation (processAllocation s ea)
        ef).freedPages a = some ef) ∧
    (processDeallocation (processAllocation s ea) ef).doubleFrees =
      (processAllocation s ea).doubleFrees ∧
    (processDeallocation (processAllocation s ea) ef).doubleAllocations =
      (processAllocation s ea).doubleAllocations ∧
    (processDeallocation (processAllocation s ea) ef).pageRangeValidationErrors
      = (processAllocation s ea).pageRangeValidationErrors ∧
    (processDeallocation (processAllocation s ea) ef).slabDoubleAllocations =
      (processAllocation s ea).slabDoubleAllocations ∧
    (processDeallocation (processAllocation s ea) ef).slabDoubleFrees =
      (processAllocation s ea).slabDoubleFrees ∧
    (processDeallocation (processAllocation s ea) ef).slabPageValidationErrors
      = (processAllocation s ea).slabPageValidationErrors ∧
    (∀ a, a ∈ pageRangeAddrs ea → a ∉ pageRangeAddrs ef →
      alist_get (processDeallocation (processAllocation s ea)
        ef).allocatedPages a = some ea) := by
  have hsub : ∀ a, a ∈ pageRangeAddrs ef → a ∈ pageRangeAddrs ea := by
    intro a ha
    obtain ⟨i, hi, rfl⟩ := mem_pageRangeAddrs.mp ha
    refine mem_pageRangeAddrs.mpr ⟨d + i, ?_, ?_⟩
    · rw [Nat.one_shiftLeft] at hi ⊢
      omega
    · rw [hbase]
      ring
  have hownA : ∀ a, a ∈ pageRangeAddrs ea →
      alist_get (processAllocation s ea).allocatedPages a = some ea := by
    intro a ha
    unfold processAllocation
    exact allocLoop_get_mem ea _ _ _ ha
  have hfr := freeLoop_frame ef (pageRangeAddrs ef) (processAllocation s ea)
  refine ⟨?_, ?_, hfr.1, hfr.2.2.2.2.1, hfr.2.1, hfr.2.2.1, hfr.2.2.2.1, ?_⟩
  · intro a ha
    unfold processDeallocation
    exact ⟨freeLoop_get_alloc_mem ef _ _ _ ha,
      freeLoop_get_freed_mem ef _ _ _ ha⟩
  · unfold processDeallocation
    rw [freeLoop_DF ef _ _ (pageRangeAddrs_nodup ef)]
    have hnil : (pageRangeAddrs ef).filterMap
        (dfOf (processAllocation s ea).allocatedPages
          (processAllocation s ea).freedPages ef) = [] := by
      refine filterMap_eq_nil_of_none fun a ha => ?_
      unfold dfOf
      rw [hownA a (hsub a ha)]
    rw [hnil, List.append_nil]
  · intro a haa hna
    unfold processDeallocation
    rw [freeLoop_get_alloc_not_mem ef _ _ _ hna]
    exact hownA a haa

/-- Witness for claim C9: order-1 allocation at 0x8000 followed by an
order-0 free of its first page, applied through the theorem. -/
theorem claim_C9_witness :
    alist_get (processDeallocation
        (processAllocation initState ⟨.alloc, 1, 0, 0x8000, 1⟩)
        ⟨.free, 0, 0, 0x8000, 2⟩).allocatedPages 0x9000 =
      some ⟨.alloc, 1, 0, 0x8000, 1⟩ ∧
    alist_get (processDeallocation
        (processAllocation initState ⟨.alloc, 1, 0, 0x8000, 1⟩)
        ⟨.free, 0, 0, 0x8000, 2⟩).allocatedPages 0x8000 = none ∧
    alist_get (processDeallocation
        (processAllocation initState ⟨.alloc, 1, 0, 0x8000, 1⟩)
        ⟨.free, 0, 0, 0x8000, 2⟩).freedPages 0x8000 =
      some ⟨.free, 0, 0, 0x8000, 2⟩ := by
  have h := claim_C9_partial_free_frame initState ⟨.alloc, 1, 0, 0x8000, 1⟩
      ⟨.free, 0, 0, 0x8000, 2⟩ 0 (by decide) (by decide) (by decide)
      (by decide)
  exact ⟨h.2.2.2.2.2.2.2 0x9000 (by decide) (by decide),
    (h.1 0x8000 (by decide)).1, (h.1 0x8000 (by decide)).2⟩

end PageLog
